import Mathlib

/-!
Shallow embedding of the `kernel-sync` seqlock crate
(src/seqlock.rs, src/id.rs), for checking the natural-language
specification against the code.

The reader protocol races with writers, so its loads are modelled
against an environment trace `env : Nat → Mem T` giving the shared
memory contents (sequence word and payload) at each of the reader's
successive load steps; a constant trace models the quiescent
(no interference) case.  Spin loops are fuel-bounded: a `none` result
means the loop was still spinning when the fuel ran out (i.e. the
code has not returned).
-/

namespace KernelSync

/-- `usize` arithmetic is modulo `2 ^ 64`. -/
def USIZE : Nat := 2 ^ 64

/-- `usize::MAX`. -/
def USIZE_MAX : Nat := 2 ^ 64 - 1

/-- Shared memory visible to a reader: the sequence word and the payload. -/
structure Mem (T : Type) where
  seq : Nat
  data : T

variable {T I : Type}

/-- Lines 80-84 / 130-134 of seqlock.rs:
`let mut start = *seq; while start & 1 == 1 { start = *seq; spin_loop(); }`.
From time `t`, load the sequence; while the loaded value is odd, reload on
the next tick.  Returns `some (start, t')` with the even value read and the
first tick after the final load; `none` if still spinning when `fuel` runs
out. -/
def waitEven (env : Nat → Mem T) : Nat → Nat → Option (Nat × Nat)
  | t, 0 =>
    if (env t).seq % 2 = 1 then none else some ((env t).seq, t + 1)
  | t, fuel + 1 =>
    if (env t).seq % 2 = 1 then waitEven env (t + 1) fuel
    else some ((env t).seq, t + 1)

/-- One load-validate pass of the reader protocol (lines 78-94 and 128-145):
wait for an even start value, read-fence, apply `f` to the payload,
read-fence, reload the sequence and compare with `start`.
`some (some r, t')`: validation succeeded with result `r`;
`some (none, t')`: validation failed (sequence changed);
`none`: the wait loop was still spinning when the fuel ran out. -/
def readPass (env : Nat → Mem T) (f : T → I) (t fuel : Nat) :
    Option (Option I × Nat) :=
  match waitEven env t fuel with
  | none => none
  | some (start, t1) =>
    let ret := f (env t1).data
    let fin := (env (t1 + 1)).seq
    some (if start = fin then some ret else none, t1 + 2)

/-- `SeqLock::try_read` (lines 124-146): a single pass; `some (some r)` maps
to Rust's `Some(r)`, `some none` to `None`, and `none` means the pre-wait
loop was still spinning (the call has not returned). -/
def tryRead (env : Nat → Mem T) (f : T → I) (t fuel : Nat) :
    Option (Option I) :=
  (readPass env f t fuel).map Prod.fst

/-- `SeqLock::read` (lines 73-96): repeat the pass until validation succeeds.
`rounds` bounds the number of outer-loop iterations, `fuel` the spinning
inside each wait loop; `none` means the call has not yet returned within
those bounds. -/
def readLoop (env : Nat → Mem T) (f : T → I) (fuel : Nat) :
    Nat → Nat → Option I
  | _, 0 => none
  | t, rounds + 1 =>
    match readPass env f t fuel with
    | none => none
    | some (some r, _) => some r
    | some (none, t') => readLoop env f fuel t' rounds

/-- The state of a `SeqLock<T>`: the sequence word, the payload stored in
the inner `SpinLock`, and whether the mutual-exclusion primitive is held
(equivalently, whether a `SeqLockGuard` is outstanding).  The `SpinLock`
itself is not under src/; its lock/unlock/into_inner behaviour is modelled
from the spec (sections 4.4, 6): a blocking `lock()` granting exclusive
access, released when the guard drops. -/
structure SeqLock (T : Type) where
  seq : Nat
  data : T
  held : Bool
  deriving DecidableEq

/-- `SeqLock::new` (lines 41-46): sequence 0, payload wrapped, lock free. -/
def SeqLock.new (v : T) : SeqLock T := ⟨0, v, false⟩

/-- `SeqLock::into_inner` (lines 50-55).  Modelled from the spec: the inner
`SpinLock::into_inner` is not under src/; per spec sections 4.1 and 6 it
consumes the mutual-exclusion primitive and yields the payload directly. -/
def SeqLock.into_inner (s : SeqLock T) : T := s.data

/-- The environment trace seen by a reader when nothing else runs. -/
def constEnv (s : SeqLock T) : Nat → Mem T := fun _ => ⟨s.seq, s.data⟩

/-- Quiescent `read` on a lock state: the retry loop run against the
constant trace of that state. -/
def SeqLock.read (s : SeqLock T) (f : T → I) (rounds fuel : Nat) :
    Option I :=
  readLoop (constEnv s) f fuel 0 rounds

/-- Quiescent `try_read` on a lock state. -/
def SeqLock.tryReadQ (s : SeqLock T) (f : T → I) (fuel : Nat) :
    Option (Option I) :=
  tryRead (constEnv s) f 0 fuel

/-- `SeqLock::write` (lines 99-108): acquire the inner spinlock (blocks —
here: `none` — when it is already held), then `*seq += 1` and a
write-fence, returning the guard.  The guard is represented by `held`
being set in the resulting state. -/
def SeqLock.write (s : SeqLock T) : Option (SeqLock T) :=
  if s.held then none
  else some ⟨(s.seq + 1) % USIZE, s.data, true⟩

/-- Mutation of the payload through `SeqLockGuard`'s `DerefMut`
(lines 199-203): stores into the spinlock's payload; legal only while the
guard is outstanding. -/
def SeqLock.guardSet (s : SeqLock T) (x : T) : Option (SeqLock T) :=
  if s.held then some ⟨s.seq, x, true⟩ else none

/-- `SeqLockGuard`'s `Drop` (lines 205-212): write-fence, `*self.seq += 1`,
then the `lock` field (the spinlock guard) is dropped, releasing the
mutual-exclusion primitive. -/
def SeqLock.dropGuard (s : SeqLock T) : Option (SeqLock T) :=
  if s.held then some ⟨(s.seq + 1) % USIZE, s.data, false⟩ else none

/-- The public operations, for sequential executions of the API. -/
inductive Op (T : Type) where
  | write : Op T
  | dropG : Op T
  | setData : T → Op T
  | doRead : Op T
  | doTryRead : Op T

/-- One API step.  `read`/`try_read` leave the state untouched (the frame
property proved at the micro-event level below). -/
def step (s : SeqLock T) : Op T → Option (SeqLock T)
  | .write => s.write
  | .dropG => s.dropGuard
  | .setData x => s.guardSet x
  | .doRead => some s
  | .doTryRead => some s

/-- Run a list of API operations from a state. -/
def run (s : SeqLock T) : List (Op T) → Option (SeqLock T)
  | [] => some s
  | op :: ops =>
    match step s op with
    | none => none
    | some s' => run s' ops

/-- Number of `write` operations in a list. -/
def countW : List (Op T) → Nat
  | [] => 0
  | .write :: ops => countW ops + 1
  | _ :: ops => countW ops

/-- Number of guard releases in a list. -/
def countD : List (Op T) → Nat
  | [] => 0
  | .dropG :: ops => countD ops + 1
  | _ :: ops => countD ops

/-- The `Debug` implementation for `SeqLock` (lines 149-166): a `try_read`
whose closure writes `"SeqLock { data: "`, the payload's representation and
`"}"` into the formatter, followed by `"Real result"` or
`"Uncertain result"` according to whether the `try_read` returned `Some`.
The closure's writes land in the formatter even when validation fails;
`none` means the `try_read`'s wait loop was still spinning (the formatting
call has not returned). -/
def debugFmt (env : Nat → Mem T) (reprT : T → String) (t fuel : Nat) :
    Option String :=
  match waitEven env t fuel with
  | none => none
  | some (start, t1) =>
    let body := "SeqLock \x7b data: " ++ reprT (env t1).data ++ "\x7d"
    let ok := start = (env (t1 + 1)).seq
    some (body ++ (if ok then "Real" else "Uncertain") ++ " result")

/-- Micro-events of the seqlock code: fences, the sequence-word increment,
payload loads/stores and the spinlock transitions. -/
inductive MicroEv (T : Type) where
  | wmb : MicroEv T
  | rmb : MicroEv T
  | incSeq : MicroEv T
  | loadSeq : MicroEv T
  | loadData : MicroEv T
  | store : T → MicroEv T
  | lockAcq : MicroEv T
  | unlock : MicroEv T

/-- Effect of one micro-event on the lock state: only the increment, the
payload store and the spinlock transitions change anything. -/
def applyEv (s : SeqLock T) : MicroEv T → SeqLock T
  | .incSeq => ⟨(s.seq + 1) % USIZE, s.data, s.held⟩
  | .store x => ⟨s.seq, x, s.held⟩
  | .lockAcq => ⟨s.seq, s.data, true⟩
  | .unlock => ⟨s.seq, s.data, false⟩
  | _ => s

/-- Effect of a trace of micro-events. -/
def applyEvs (s : SeqLock T) (evs : List (MicroEv T)) : SeqLock T :=
  List.foldl applyEv s evs

/-- Body of `SeqLockGuard::drop` (lines 208-211): `smp_wmb()` then
`*self.seq += 1`. -/
def dropBodyEvents : List (MicroEv T) := [.wmb, .incSeq]

/-- Modelled from the spec: after a `Drop` impl's body, the struct's fields
are dropped, and dropping the held `SpinLockGuard` (whose code is not under
src/) releases the mutual-exclusion primitive (spec sections 4.5, 6). -/
def guardFieldDropEvents : List (MicroEv T) := [.unlock]

/-- The full release trace of a `SeqLockGuard`: the `drop` body followed by
the field drops. -/
def dropGuardEvents : List (MicroEv T) :=
  dropBodyEvents ++ guardFieldDropEvents

/-- Micro-event trace of `SeqLock::write` (lines 99-108): spinlock
acquisition, then `*seq += 1`, then `smp_wmb()`. -/
def writeEvents : List (MicroEv T) := [.lockAcq, .incSeq, .wmb]

/-- Micro-event trace of one pass of `read`/`try_read` (lines 78-94,
128-145): the initial sequence load, `spins` reloads inside the wait loop,
a read-fence, the payload load, a read-fence and the revalidation load. -/
def readPassEvents (spins : Nat) : List (MicroEv T) :=
  .loadSeq :: (List.replicate spins .loadSeq ++
    [.rmb, .loadData, .rmb, .loadSeq])

/-- Micro-event trace of a full `read`: one pass per entry of `passes`,
each entry giving that pass's number of wait-loop reloads. -/
def readEvents (passes : List Nat) : List (MicroEv T) :=
  (passes.map readPassEvents).flatten

/-- `true` exactly on the sequence-word increment event. -/
def isIncSeq : MicroEv T → Bool
  | .incSeq => true
  | _ => false

/-- `true` exactly on the spinlock release event. -/
def isUnlock : MicroEv T → Bool
  | .unlock => true
  | _ => false

/-- `true` exactly on the write-fence event. -/
def isWmb : MicroEv T → Bool
  | .wmb => true
  | _ => false

/-- `RecycleAllocator` (src/id.rs).  The `Vec` of recycled ids is a stack
(`push`/`pop` act on its end); it is modelled as a list whose head is the
stack's top. -/
structure RecycleAllocator where
  current : Nat
  recycled : List Nat
  deriving DecidableEq

/-- `RecycleAllocator::new` (lines 9-14). -/
def RecycleAllocator.new (c : Nat) : RecycleAllocator := ⟨c, []⟩

/-- `RecycleAllocator::alloc` (lines 15-23): pop a recycled id if any;
otherwise `current += 1` (debug-panics — `none` — on `usize` overflow),
`assert_ne!(current, usize::MAX)` (panics — `none` — when the incremented
counter equals `usize::MAX`), and return `current - 1`. -/
def RecycleAllocator.alloc (a : RecycleAllocator) :
    Option (Nat × RecycleAllocator) :=
  match a.recycled with
  | id :: rest => some (id, ⟨a.current, rest⟩)
  | [] =>
    if a.current + 1 ≥ USIZE then none
    else if a.current + 1 = USIZE_MAX then none
    else some (a.current, ⟨a.current + 1, []⟩)

/-- `RecycleAllocator::dealloc` (lines 25-27): push the id on the stack. -/
def RecycleAllocator.dealloc (a : RecycleAllocator) (id : Nat) :
    RecycleAllocator :=
  ⟨a.current, id :: a.recycled⟩

/-! ### Helper lemmas -/

/-- `2 ^ 64` is even, so reduction modulo `USIZE` preserves parity. -/
lemma mod_USIZE_parity (n : Nat) : n % USIZE % 2 = n % 2 :=
  Nat.mod_mod_of_dvd n ⟨2 ^ 63, by norm_num [USIZE]⟩

/-- The wait loop only ever returns an even start value. -/
lemma waitEven_even {env : Nat → Mem T} :
    ∀ {t fuel start t1}, waitEven env t fuel = some (start, t1) →
      start % 2 = 0 := by
  intro t fuel
  induction fuel generalizing t with
  | zero =>
    intro start t1 h
    simp only [waitEven] at h
    split at h
    · exact absurd h (by simp)
    · next hodd =>
      obtain ⟨h1, _⟩ := Prod.mk.injEq .. ▸ Option.some.injEq .. ▸ h
      omega
  | succ fuel ih =>
    intro start t1 h
    simp only [waitEven] at h
    split at h
    · exact ih h
    · next hodd =>
      obtain ⟨h1, _⟩ := Prod.mk.injEq .. ▸ Option.some.injEq .. ▸ h
      omega

/-- If the sequence word is odd at every tick, the wait loop never exits. -/
lemma waitEven_allOdd {env : Nat → Mem T}
    (hodd : ∀ u, (env u).seq % 2 = 1) :
    ∀ fuel t, waitEven env t fuel = none := by
  intro fuel
  induction fuel with
  | zero => intro t; simp [waitEven, hodd t]
  | succ fuel ih => intro t; simp [waitEven, hodd t, ih (t + 1)]

/-- On a constant trace with an even sequence word, the wait loop exits at
once with that value. -/
lemma waitEven_const {s : Nat} {d : T} (hs : s % 2 = 0) :
    ∀ fuel t, waitEven (fun _ => (⟨s, d⟩ : Mem T)) t fuel = some (s, t + 1) := by
  intro fuel t
  cases fuel <;> simp [waitEven] <;> omega

/-- Characterization of one reader pass in terms of the wait loop's exit. -/
lemma readPass_eq {env : Nat → Mem T} {f : T → I} {t fuel start t1 : Nat}
    (h : waitEven env t fuel = some (start, t1)) :
    readPass env f t fuel =
      some (if start = (env (t1 + 1)).seq then some (f (env t1).data)
            else none, t1 + 2) := by
  simp [readPass, h]

/-- Running a concatenation of operation lists is running them in turn. -/
lemma run_append (l1 l2 : List (Op T)) :
    ∀ s : SeqLock T, run s (l1 ++ l2) = (run s l1).bind fun m => run m l2 := by
  induction l1 with
  | nil => intro s; simp [run]
  | cons op ops ih =>
    intro s
    simp only [List.cons_append, run]
    cases step s op <;> simp [ih]

/-- Parity bookkeeping: a run started in a parity-correct state ends in
one. -/
lemma run_parity :
    ∀ (ops : List (Op T)) (s s' : SeqLock T), run s ops = some s' →
      s.seq % 2 = cond s.held 1 0 → s'.seq % 2 = cond s'.held 1 0 := by
  intro ops
  induction ops with
  | nil => intro s s' h hs; cases h; exact hs
  | cons op ops ih =>
    intro s s' h hs
    match op with
    | .write =>
      simp only [run, step, SeqLock.write] at h
      by_cases hh : s.held
      · simp [hh] at h
      · simp only [hh, if_false] at h
        refine ih _ _ h ?_
        simp only [cond_true]
        rw [mod_USIZE_parity]
        simp [hh] at hs
        omega
    | .dropG =>
      simp only [run, step, SeqLock.dropGuard] at h
      by_cases hh : s.held
      · simp only [hh, if_true] at h
        refine ih _ _ h ?_
        simp only [cond_false]
        rw [mod_USIZE_parity]
        simp [hh] at hs
        omega
      · simp [hh] at h
    | .setData x =>
      simp only [run, step, SeqLock.guardSet] at h
      by_cases hh : s.held
      · simp only [hh, if_true] at h
        refine ih _ _ h ?_
        simpa [hh] using hs
      · simp [hh] at h
    | .doRead => simp only [run, step] at h; exact ih _ _ h hs
    | .doTryRead => simp only [run, step] at h; exact ih _ _ h hs

/-- Counter bookkeeping: short of wraparound, a run advances the sequence
word by exactly the number of write-entries plus write-exits. -/
lemma run_counts :
    ∀ (ops : List (Op T)) (s s' : SeqLock T), run s ops = some s' →
      s.seq + countW ops + countD ops < USIZE →
      s'.seq = s.seq + countW ops + countD ops := by
  intro ops
  induction ops with
  | nil => intro s s' h _; cases h; simp [countW, countD]
  | cons op ops ih =>
    intro s s' h hb
    match op with
    | .write =>
      simp only [countW, countD] at hb ⊢
      simp only [run, step, SeqLock.write] at h
      by_cases hh : s.held
      · simp [hh] at h
      · simp only [hh, if_false] at h
        have hlt : s.seq + 1 < USIZE := by omega
        rw [Nat.mod_eq_of_lt hlt] at h
        have := ih _ _ h (by simp; omega)
        simp at this
        omega
    | .dropG =>
      simp only [countW, countD] at hb ⊢
      simp only [run, step, SeqLock.dropGuard] at h
      by_cases hh : s.held
      · simp only [hh, if_true] at h
        have hlt : s.seq + 1 < USIZE := by omega
        rw [Nat.mod_eq_of_lt hlt] at h
        have := ih _ _ h (by simp; omega)
        simp at this
        omega
      · simp [hh] at h
    | .setData x =>
      simp only [countW, countD] at hb ⊢
      simp only [run, step, SeqLock.guardSet] at h
      by_cases hh : s.held
      · simp only [hh, if_true] at h
        have := ih _ _ h (by simpa using hb)
        simpa using this
      · simp [hh] at h
    | .doRead =>
      simp only [countW, countD] at hb ⊢
      simp only [run, step] at h
      exact ih _ _ h hb
    | .doTryRead =>
      simp only [countW, countD] at hb ⊢
      simp only [run, step] at h
      exact ih _ _ h hb

/-- Guard bookkeeping: write-entries and write-exits balance against the
held flag. -/
lemma run_balance :
    ∀ (ops : List (Op T)) (s s' : SeqLock T), run s ops = some s' →
      countW ops + cond s.held 1 0 = countD ops + cond s'.held 1 0 := by
  intro ops
  induction ops with
  | nil => intro s s' h; cases h; simp [countW, countD]
  | cons op ops ih =>
    intro s s' h
    match op with
    | .write =>
      simp only [countW, countD]
      simp only [run, step, SeqLock.write] at h
      by_cases hh : s.held
      · simp [hh] at h
      · simp only [hh, if_false] at h
        have := ih _ _ h
        simp only [cond_true] at this
        simp only [hh, cond_false]
        omega
    | .dropG =>
      simp only [countW, countD]
      simp only [run, step, SeqLock.dropGuard] at h
      by_cases hh : s.held
      · simp only [hh, if_true] at h
        have := ih _ _ h
        simp only [cond_false] at this
        simp only [hh, cond_true]
        omega
      · simp [hh] at h
    | .setData x =>
      simp only [countW, countD]
      simp only [run, step, SeqLock.guardSet] at h
      by_cases hh : s.held
      · simp only [hh, if_true] at h
        have := ih _ _ h
        simpa [hh] using this
      · simp [hh] at h
    | .doRead => simp only [countW, countD]; simp only [run, step] at h; exact ih _ _ h
    | .doTryRead => simp only [countW, countD]; simp only [run, step] at h; exact ih _ _ h

/-- Write-entry counts add over concatenation. -/
lemma countW_append (l1 l2 : List (Op T)) :
    countW (l1 ++ l2) = countW l1 + countW l2 := by
  induction l1 with
  | nil => simp [countW]
  | cons op ops ih => match op with
    | .write => simp [countW, ih]; omega
    | .dropG => simp [countW, ih]
    | .setData x => simp [countW, ih]
    | .doRead => simp [countW, ih]
    | .doTryRead => simp [countW, ih]

/-- Write-exit counts add over concatenation. -/
lemma countD_append (l1 l2 : List (Op T)) :
    countD (l1 ++ l2) = countD l1 + countD l2 := by
  induction l1 with
  | nil => simp [countD]
  | cons op ops ih => match op with
    | .write => simp [countD, ih]
    | .dropG => simp [countD, ih]; omega
    | .setData x => simp [countD, ih]
    | .doRead => simp [countD, ih]
    | .doTryRead => simp [countD, ih]

/-- Folding a concatenation of event traces folds them in turn. -/
lemma applyEvs_append (s : SeqLock T) (l1 l2 : List (MicroEv T)) :
    applyEvs s (l1 ++ l2) = applyEvs (applyEvs s l1) l2 :=
  List.foldl_append ..

/-- Reloads inside the wait loop do not change the state. -/
lemma applyEvs_replicate_loadSeq (n : Nat) :
    ∀ s : SeqLock T, applyEvs s (List.replicate n .loadSeq) = s := by
  induction n with
  | zero => intro s; rfl
  | succ n ih =>
    intro s
    simpa [List.replicate_succ, applyEvs, List.foldl_cons, applyEv] using ih s

/-- One pass of the reader touches nothing: its trace is loads and fences
only. -/
lemma applyEvs_readPassEvents (spins : Nat) (s : SeqLock T) :
    applyEvs s (readPassEvents spins) = s := by
  show applyEvs s (.loadSeq :: (List.replicate spins .loadSeq ++
    [.rmb, .loadData, .rmb, .loadSeq])) = s
  have h1 : applyEv s (.loadSeq : MicroEv T) = s := rfl
  simp only [applyEvs, List.foldl_cons, List.foldl_append, h1]
  have h2 := applyEvs_replicate_loadSeq (T := T) spins s
  simp only [applyEvs] at h2
  rw [h2]
  rfl

/-- Interference environment used as a concrete input: the sequence word
changes (2 to 4) between the reader's start load and its revalidation
load. -/
def tornEnv : Nat → Mem String :=
  fun t => if t = 2 then ⟨4, "bye"⟩ else ⟨2, "42"⟩

/-- Environment of a lock whose writer never releases: the sequence word
reads 1 (odd) at every tick. -/
def oddConstEnv : Nat → Mem Nat := fun _ => ⟨1, 0⟩

/-! ### Claims -/

/-- Claim C1, counterexample.  The claim says a `try_read` issued while a
writer holds the guard (sequence odd) returns `None` rather than waiting;
in the code the pre-wait loop of lines 130-134 spins on an odd sequence
word, so under a persistently odd environment `try_read` never returns at
all (here: still spinning after 5 reloads), and in particular has not
returned `None`. -/
theorem c1_counterexample :
    tryRead oddConstEnv (fun n => n) 0 5 = none ∧
    tryRead oddConstEnv (fun n => n) 0 5 ≠ some none := by
  constructor
  · rfl
  · intro h
    exact Option.noConfusion h

/-- Claim C1, amended: `try_read` first waits — spinning, exactly like
`read` — until it observes an even sequence value, and only then performs
its load-validate pass exactly once: it returns `Some(f's result)` if the
revalidation load equals the (necessarily even) start value, `None` if it
differs, and if the sequence word stays odd it spins forever instead of
returning `None`. -/
theorem c1_try_read_waits_then_validates :
    (∀ (T I : Type) (env : Nat → Mem T) (f : T → I) (t fuel start t1 : Nat),
      waitEven env t fuel = some (start, t1) →
      start % 2 = 0 ∧
      ((env (t1 + 1)).seq = start →
        tryRead env f t fuel = some (some (f (env t1).data))) ∧
      ((env (t1 + 1)).seq ≠ start →
        tryRead env f t fuel = some none)) ∧
    (∀ (T I : Type) (env : Nat → Mem T) (f : T → I) (t fuel : Nat),
      (∀ u, (env u).seq % 2 = 1) → tryRead env f t fuel = none) := by
  constructor
  · intro T I env f t fuel start t1 h
    refine ⟨waitEven_even h, ?_, ?_⟩
    · intro hv
      rw [tryRead, readPass_eq h, if_pos hv.symm]
      rfl
    · intro hv
      rw [tryRead, readPass_eq h, if_neg (fun hEq => hv hEq.symm)]
      rfl
  · intro T I env f t fuel hodd
    rw [tryRead, readPass, waitEven_allOdd hodd]
    rfl

/-- Claim C1, witness for the amended theorem at concrete inputs. -/
theorem c1_witness :
    waitEven (fun _ => (⟨2, 7⟩ : Mem Nat)) 0 0 = some (2, 1) ∧
    tryRead (fun _ => (⟨2, 7⟩ : Mem Nat)) (fun n => n + 1) 0 0 =
      some (some 8) ∧
    tryRead oddConstEnv (fun n => n) 0 3 = none := by
  refine ⟨rfl, ?_, ?_⟩
  · exact (c1_try_read_waits_then_validates.1 Nat Nat
      (fun _ => ⟨2, 7⟩) (fun n => n + 1) 0 0 2 1 rfl).2.1 rfl
  · exact c1_try_read_waits_then_validates.2 Nat Nat
      oddConstEnv (fun n => n) 0 3 (fun _ => rfl)

/-- Claim C2: the sequence counter is even exactly while no guard is
outstanding — `new` initializes it to 0 with the lock free, the invariant
holds in every state reachable by the public API from `new`, `write` makes
the counter odd with the guard outstanding, and dropping the guard makes
it even again with the guard gone. -/
theorem c2_parity_invariant :
    (∀ (T : Type) (v : T),
      (SeqLock.new v).seq = 0 ∧ (SeqLock.new v).held = false) ∧
    (∀ (T : Type) (v : T) (ops : List (Op T)) (s' : SeqLock T),
      run (SeqLock.new v) ops = some s' →
      (s'.seq % 2 = 0 ↔ s'.held = false)) ∧
    (∀ (T : Type) (s s' : SeqLock T), s.seq % 2 = 0 → s.write = some s' →
      s'.seq % 2 = 1 ∧ s'.held = true) ∧
    (∀ (T : Type) (s s' : SeqLock T), s.seq % 2 = 1 →
      s.dropGuard = some s' → s'.seq % 2 = 0 ∧ s'.held = false) := by
  refine ⟨fun T v => ⟨rfl, rfl⟩, ?_, ?_, ?_⟩
  · intro T v ops s' h
    have := run_parity ops (SeqLock.new v) s' h (by simp [SeqLock.new])
    cases hh : s'.held <;> simp [hh] at this ⊢ <;> omega
  · intro T s s' hs h
    rw [SeqLock.write] at h
    by_cases hh : s.held
    · simp [hh] at h
    · rw [if_neg hh] at h
      cases h
      refine ⟨?_, rfl⟩
      rw [mod_USIZE_parity]
      omega
  · intro T s s' hs h
    rw [SeqLock.dropGuard] at h
    by_cases hh : s.held
    · rw [if_pos hh] at h
      cases h
      refine ⟨?_, rfl⟩
      rw [mod_USIZE_parity]
      omega
    · simp [hh] at h

/-- Claim C2, witness: one `write` from `new 0` reaches a state with an odd
counter and the guard outstanding. -/
theorem c2_witness :
    run (SeqLock.new (0 : Nat)) [Op.write] = some ⟨1, 0, true⟩ ∧
    ((⟨1, 0, true⟩ : SeqLock Nat).seq % 2 = 0 ↔
      (⟨1, 0, true⟩ : SeqLock Nat).held = false) := by
  refine ⟨by decide, ?_⟩
  exact c2_parity_invariant.2.1 Nat 0 [Op.write] ⟨1, 0, true⟩ (by decide)

/-- Claim C4: short of `usize` wraparound, the sequence counter after any
successful run from `new` equals the number of write-entries plus guard
releases (so the counter never decreases along the run — every prefix's
counter is bounded by the final one); with no guard outstanding it equals
twice the number of completed writes, so `sequence / 2` counts them.  Each
`write` and each guard release increments the counter by exactly 1, and the
other operations (`DerefMut` stores, `read`, `try_read`) leave it
unchanged. -/
theorem c4_monotone_counter :
    (∀ (T : Type) (v : T) (ops : List (Op T)) (s' : SeqLock T),
      run (SeqLock.new v) ops = some s' →
      countW ops + countD ops < USIZE →
      s'.seq = countW ops + countD ops ∧
      (s'.held = false → countW ops = countD ops ∧
        s'.seq = 2 * countD ops ∧ s'.seq / 2 = countD ops) ∧
      (∀ pre suf, ops = pre ++ suf →
        ∃ m, run (SeqLock.new v) pre = some m ∧ m.seq ≤ s'.seq)) ∧
    (∀ (T : Type) (s s1 : SeqLock T), s.seq + 1 < USIZE →
      (s.write = some s1 → s1.seq = s.seq + 1) ∧
      (s.dropGuard = some s1 → s1.seq = s.seq + 1)) ∧
    (∀ (T : Type) (s s1 : SeqLock T) (x : T),
      s.guardSet x = some s1 → s1.seq = s.seq) ∧
    (∀ (T : Type) (s : SeqLock T),
      step s Op.doRead = some s ∧ step s Op.doTryRead = some s) := by
  refine ⟨?_, ?_, ?_, fun T s => ⟨rfl, rfl⟩⟩
  · intro T v ops s' h hb
    have hseq := run_counts ops (SeqLock.new v) s' h (by simpa [SeqLock.new] using hb)
    simp only [SeqLock.new, Nat.zero_add] at hseq
    have hbal := run_balance ops (SeqLock.new v) s' h
    simp only [SeqLock.new, cond_false] at hbal
    refine ⟨hseq, ?_, ?_⟩
    · intro hh
      rw [hh] at hbal
      simp only [cond_false] at hbal
      omega
    · intro pre suf hsplit
      subst hsplit
      rw [run_append] at h
      cases hm : run (SeqLock.new v) pre with
      | none => rw [hm] at h; simp at h
      | some m =>
        rw [hm] at h
        simp only [Option.some_bind] at h
        rw [countW_append, countD_append] at hb hseq
        have hmseq := run_counts pre (SeqLock.new v) m hm
          (by simp [SeqLock.new]; omega)
        simp only [SeqLock.new, Nat.zero_add] at hmseq
        exact ⟨m, rfl, by omega⟩
  · intro T s s1 hlt
    constructor
    · intro h
      rw [SeqLock.write] at h
      by_cases hh : s.held
      · simp [hh] at h
      · rw [if_neg hh] at h
        cases h
        exact Nat.mod_eq_of_lt hlt
    · intro h
      rw [SeqLock.dropGuard] at h
      by_cases hh : s.held
      · rw [if_pos hh] at h
        cases h
        exact Nat.mod_eq_of_lt hlt
      · simp [hh] at h
  · intro T s s1 x h
    rw [SeqLock.guardSet] at h
    by_cases hh : s.held
    · rw [if_pos hh] at h
      cases h
      rfl
    · simp [hh] at h

/-- Claim C4, witness: a completed write/release pair from `new 0` leaves
the counter at 2, the counts of write-entries and releases. -/
theorem c4_witness :
    run (SeqLock.new (0 : Nat)) [Op.write, Op.dropG] = some ⟨2, 0, false⟩ ∧
    countW [Op.write, Op.dropG (T := Nat)] +
      countD [Op.write, Op.dropG (T := Nat)] < USIZE ∧
    (⟨2, 0, false⟩ : SeqLock Nat).seq =
      countW [Op.write, Op.dropG (T := Nat)] +
      countD [Op.write, Op.dropG (T := Nat)] := by
  refine ⟨by decide, by decide, ?_⟩
  exact (c4_monotone_counter.1 Nat 0 [Op.write, Op.dropG] ⟨2, 0, false⟩
    (by decide) (by decide)).1

/-- Claim C5: from `new(0)`, acquiring `write()`, storing 5 through the
guard and dropping it yields the state with counter 2 on which a quiescent
`read` returns 5. -/
theorem c5_scenario_a :
    run (SeqLock.new (0 : Nat)) [Op.write, Op.setData 5, Op.dropG] =
      some ⟨2, 5, false⟩ ∧
    (⟨2, 5, false⟩ : SeqLock Nat).read (fun n => n) 1 0 = some 5 ∧
    (⟨2, 5, false⟩ : SeqLock Nat).seq = 2 := by
  refine ⟨by decide, by decide, rfl⟩

/-- Claim C6: on a quiescent lock with an even sequence counter, `read`
returns `f` of the payload in its first pass whatever the retry budget;
and in general a pass of the loop fails (forcing a restart) exactly when
the revalidation load differs from the even start value. -/
theorem c6_read_quiescent_single_pass :
    (∀ (T I : Type) (s : SeqLock T) (f : T → I) (rounds fuel : Nat),
      s.seq % 2 = 0 → s.read f (rounds + 1) fuel = some (f s.data)) ∧
    (∀ (T I : Type) (env : Nat → Mem T) (f : T → I) (t fuel start t1 : Nat),
      waitEven env t fuel = some (start, t1) →
      (readPass env f t fuel = some (none, t1 + 2) ↔
        (env (t1 + 1)).seq ≠ start)) := by
  constructor
  · intro T I s f rounds fuel hs
    have hw : waitEven (constEnv s) 0 fuel = some (s.seq, 0 + 1) :=
      waitEven_const (d := s.data) hs fuel 0
    have hp : readPass (constEnv s) f 0 fuel =
        some (some (f s.data), 0 + 1 + 2) := by
      rw [readPass_eq hw,
        if_pos (show s.seq = (constEnv s (0 + 1 + 1)).seq from rfl)]
      exact rfl
    rw [SeqLock.read, readLoop, hp]
  · intro T I env f t fuel start t1 h
    constructor
    · intro hx hEq
      rw [readPass_eq h, if_pos hEq.symm] at hx
      simp at hx
    · intro hne
      rw [readPass_eq h, if_neg (fun hEq => hne hEq.symm)]

/-- Claim C6, witness: a quiescent read at counter 4 returns the doubled
payload in one pass, and the pass-failure criterion at a constant trace. -/
theorem c6_witness :
    ((⟨4, 9, false⟩ : SeqLock Nat).seq % 2 = 0) ∧
    (⟨4, 9, false⟩ : SeqLock Nat).read (fun n => n * 2) 1 0 = some 18 ∧
    waitEven (fun _ => (⟨4, 9⟩ : Mem Nat)) 0 0 = some (4, 1) ∧
    (readPass (fun _ => (⟨4, 9⟩ : Mem Nat)) (fun n => n * 2) 0 0 =
        some (none, 3) ↔
      ((fun _ => (⟨4, 9⟩ : Mem Nat)) 2).seq ≠ 4) := by
  refine ⟨by decide, ?_, rfl, ?_⟩
  · exact c6_read_quiescent_single_pass.1 Nat Nat ⟨4, 9, false⟩
      (fun n => n * 2) 0 0 (by decide)
  · exact c6_read_quiescent_single_pass.2 Nat Nat
      (fun _ => ⟨4, 9⟩) (fun n => n * 2) 0 0 4 1 rfl

/-- Claim C7: `into_inner` extracts the payload with no failure case —
`new(v).into_inner() = v`, and after any successful run whose last
completed write stored `x`, it returns `x`. -/
theorem c7_into_inner_roundtrip :
    (∀ (T : Type) (v : T), (SeqLock.new v).into_inner = v) ∧
    (∀ (T : Type) (v x : T) (ops : List (Op T)) (s' : SeqLock T),
      run (SeqLock.new v)
        (ops ++ [Op.write, Op.setData x, Op.dropG]) = some s' →
      s'.into_inner = x) := by
  refine ⟨fun T v => rfl, ?_⟩
  intro T v x ops s' h
  rw [run_append] at h
  cases hm : run (SeqLock.new v) ops with
  | none => rw [hm] at h; simp at h
  | some m =>
    rw [hm] at h
    simp only [Option.some_bind] at h
    by_cases hh : m.held
    · simp [run, step, SeqLock.write, hh] at h
    · simp only [run, step, SeqLock.write, SeqLock.guardSet,
        SeqLock.dropGuard, hh, if_false, if_true] at h
      cases h
      rfl

/-- Claim C7, witness: a write storing 9 followed by `into_inner` returns
9. -/
theorem c7_witness :
    (SeqLock.new (3 : Nat)).into_inner = 3 ∧
    run (SeqLock.new (1 : Nat))
      ([] ++ [Op.write, Op.setData 9, Op.dropG]) = some ⟨2, 9, false⟩ ∧
    (⟨2, 9, false⟩ : SeqLock Nat).into_inner = 9 := by
  refine ⟨c7_into_inner_roundtrip.1 Nat 3, by decide, ?_⟩
  exact c7_into_inner_roundtrip.2 Nat 1 9 [] ⟨2, 9, false⟩ (by decide)

/-- Claim C3, counterexample.  The claim says a failed `Debug` format emits
only the "uncertain" placeholder instead of the payload's value and returns
without blocking for every writer state.  In the code the closure passed to
`try_read` writes the payload into the formatter before validation, so a
failed validation still emits the payload ("42" below) ahead of
"Uncertain result"; and with the sequence word permanently odd the
`try_read`'s wait loop spins, so the format call does not return at all
(here: still spinning after 5 reloads). -/
theorem c3_counterexample :
    debugFmt tornEnv (fun x => x) 0 0 =
      some "SeqLock \x7b data: 42\x7dUncertain result" ∧
    "SeqLock \x7b data: 42\x7dUncertain result" ≠ "Uncertain result" ∧
    debugFmt (fun _ => (⟨1, "w"⟩ : Mem String)) (fun x => x) 0 5 = none := by
  refine ⟨by decide, by decide, by decide⟩

/-- Claim C3, amended: `Debug` formatting performs a `try_read` whose
closure writes `"SeqLock { data: "`, the payload's representation and `"}"`
into the formatter whether or not validation succeeds; it then appends
`"Real result"` on success and `"Uncertain result"` on failure.  While a
writer holds the guard (sequence word odd) the pre-wait loop spins, so the
format call blocks instead of returning. -/
theorem c3_debug_writes_payload_and_blocks :
    (∀ (T : Type) (env : Nat → Mem T) (reprT : T → String) (t fuel : Nat),
      (∀ u, (env u).seq % 2 = 1) → debugFmt env reprT t fuel = none) ∧
    (∀ (T : Type) (env : Nat → Mem T) (reprT : T → String)
        (t fuel start t1 : Nat),
      waitEven env t fuel = some (start, t1) →
      debugFmt env reprT t fuel =
        some ("SeqLock \x7b data: " ++ reprT (env t1).data ++ "\x7d" ++
          (if start = (env (t1 + 1)).seq then "Real" else "Uncertain") ++
          " result")) := by
  constructor
  · intro T env reprT t fuel hodd
    rw [debugFmt, waitEven_allOdd hodd]
  · intro T env reprT t fuel start t1 h
    rw [debugFmt, h]

/-- Claim C3, witness for the amended theorem at concrete inputs. -/
theorem c3_witness :
    waitEven (fun _ => (⟨2, "v"⟩ : Mem String)) 0 0 = some (2, 1) ∧
    debugFmt (fun _ => (⟨2, "v"⟩ : Mem String)) (fun x => x) 0 0 =
      some "SeqLock \x7b data: v\x7dReal result" ∧
    debugFmt (fun _ => (⟨3, "w"⟩ : Mem String)) (fun x => x) 0 2 = none := by
  refine ⟨rfl, ?_, ?_⟩
  · have h := c3_debug_writes_payload_and_blocks.2 String
      (fun _ => ⟨2, "v"⟩) (fun x => x) 0 0 2 1 rfl
    rw [h]
    decide
  · exact c3_debug_writes_payload_and_blocks.1 String
      (fun _ => ⟨3, "w"⟩) (fun x => x) 0 2
      (fun _ => by show (3 : Nat) % 2 = 1; decide)

/-- Claim C8: the guard release trace — the `Drop` body followed by the
field drops — issues the write-fence, then the counter increment, then the
spinlock release, in that order; the increment and the release each occur
exactly once; and applied to a state holding the guard it increments the
counter by 1 (returning an odd counter to even) and frees the lock. -/
theorem c8_release_order :
    ∀ T : Type,
      List.findIdx isWmb (dropGuardEvents (T := T)) <
        List.findIdx isIncSeq (dropGuardEvents (T := T)) ∧
      List.findIdx isIncSeq (dropGuardEvents (T := T)) <
        List.findIdx isUnlock (dropGuardEvents (T := T)) ∧
      List.countP (fun e => isIncSeq e) (dropGuardEvents (T := T)) = 1 ∧
      List.countP (fun e => isUnlock e) (dropGuardEvents (T := T)) = 1 ∧
      ∀ s : SeqLock T, s.held = true →
        applyEvs s dropGuardEvents =
          ⟨(s.seq + 1) % USIZE, s.data, false⟩ ∧
        (s.seq % 2 = 1 → ((s.seq + 1) % USIZE) % 2 = 0) := by
  intro T
  refine ⟨?_, ?_, ?_, ?_, ?_⟩
  · simp [dropGuardEvents, dropBodyEvents, guardFieldDropEvents,
      List.findIdx_cons, isWmb, isIncSeq]
  · simp [dropGuardEvents, dropBodyEvents, guardFieldDropEvents,
      List.findIdx_cons, isIncSeq, isUnlock]
  · simp [dropGuardEvents, dropBodyEvents, guardFieldDropEvents,
      List.countP_cons, isIncSeq]
  · simp [dropGuardEvents, dropBodyEvents, guardFieldDropEvents,
      List.countP_cons, isUnlock]
  · intro s hh
    constructor
    · show applyEv (applyEv (applyEv s .wmb) .incSeq) .unlock = _
      rw [show applyEv s (.wmb : MicroEv T) = s from rfl]
      rfl
    · intro hodd
      rw [mod_USIZE_parity]
      omega

/-- Claim C8, witness: releasing the guard from a held state with counter 1
yields counter 2 with the lock free. -/
theorem c8_witness :
    (⟨1, 7, true⟩ : SeqLock Nat).held = true ∧
    applyEvs (⟨1, 7, true⟩ : SeqLock Nat) dropGuardEvents =
      ⟨2, 7, false⟩ := by
  refine ⟨rfl, ?_⟩
  have h := ((c8_release_order Nat).2.2.2.2 ⟨1, 7, true⟩ rfl).1
  rw [h]
  decide

/-- Claim C9: a reader pass — and a whole `read`, whatever its pass
structure — leaves the lock state (sequence counter and payload) exactly
as it was; among the micro-events only the increment changes the sequence
word, it occurs in the `write` and guard-release traces, and it does not
occur in any reader trace. -/
theorem c9_readers_frame :
    ∀ (T : Type) (s : SeqLock T) (spins : Nat) (passes : List Nat),
      applyEvs s (readPassEvents spins) = s ∧
      applyEvs s (readEvents passes) = s ∧
      (∀ e : MicroEv T, (applyEv s e).seq = s.seq ∨ e = MicroEv.incSeq) ∧
      MicroEv.incSeq ∉ readPassEvents (T := T) spins ∧
      MicroEv.incSeq ∈ writeEvents (T := T) ∧
      MicroEv.incSeq ∈ dropGuardEvents (T := T) := by
  intro T s spins passes
  refine ⟨applyEvs_readPassEvents spins s, ?_, ?_, ?_, ?_, ?_⟩
  · induction passes generalizing s with
    | nil => rfl
    | cons p ps ih =>
      rw [readEvents, List.map_cons, List.flatten_cons, applyEvs_append,
        applyEvs_readPassEvents]
      exact ih s
  · intro e
    cases e <;> simp [applyEv]
  · simp [readPassEvents, List.mem_cons, List.mem_append,
      List.mem_replicate]
  · simp [writeEvents]
  · simp [dropGuardEvents, dropBodyEvents, guardFieldDropEvents]

/-- Claim C10, counterexample.  The claim says that whenever the recycled
list is empty, `alloc()` returns the counter and increments it; but at
`current = usize::MAX - 1` the incremented counter equals `usize::MAX` and
the `assert_ne!` of line 20 panics, so `alloc` returns nothing. -/
theorem c10_counterexample :
    RecycleAllocator.alloc ⟨USIZE_MAX - 1, []⟩ = none ∧
    RecycleAllocator.alloc ⟨USIZE_MAX - 1, []⟩ ≠
      some (USIZE_MAX - 1, ⟨USIZE_MAX, []⟩) := by
  refine ⟨by decide, by decide⟩

/-- Claim C10, amended: `dealloc(id)` immediately followed by `alloc()`
returns that same id and restores the prior state; when the recycled list
is empty and the incremented counter stays below `usize::MAX` (so the
`assert_ne!` cannot fire), `alloc()` returns the counter and increments it
by exactly 1, so successive fresh allocations return strictly increasing
consecutive ids. -/
theorem c10_allocator_amended :
    (∀ (a : RecycleAllocator) (id : Nat),
      (a.dealloc id).alloc = some (id, a)) ∧
    (∀ c : Nat, c + 1 < USIZE_MAX →
      RecycleAllocator.alloc ⟨c, []⟩ = some (c, ⟨c + 1, []⟩)) ∧
    (∀ c : Nat, c + 2 < USIZE_MAX →
      RecycleAllocator.alloc ⟨c, []⟩ = some (c, ⟨c + 1, []⟩) ∧
      RecycleAllocator.alloc ⟨c + 1, []⟩ = some (c + 1, ⟨c + 2, []⟩)) := by
  have fresh : ∀ c : Nat, c + 1 < USIZE_MAX →
      RecycleAllocator.alloc ⟨c, []⟩ = some (c, ⟨c + 1, []⟩) := by
    intro c hc
    have hmax : USIZE_MAX < USIZE := by
      rw [USIZE, USIZE_MAX]
      omega
    rw [RecycleAllocator.alloc]
    show (if c + 1 ≥ USIZE then none
      else if c + 1 = USIZE_MAX then none
      else some (c, (⟨c + 1, []⟩ : RecycleAllocator))) = some (c, ⟨c + 1, []⟩)
    rw [if_neg (by omega), if_neg (by omega)]
  refine ⟨?_, fresh, ?_⟩
  · intro a id
    rfl
  · intro c hc
    exact ⟨fresh c (by omega), fresh (c + 1) (by omega)⟩

/-- Claim C10, witness for the amended theorem at concrete inputs. -/
theorem c10_witness :
    (RecycleAllocator.dealloc ⟨10, []⟩ 4).alloc = some (4, ⟨10, []⟩) ∧
    5 + 1 < USIZE_MAX ∧
    RecycleAllocator.alloc ⟨5, []⟩ = some (5, ⟨6, []⟩) := by
  refine ⟨c10_allocator_amended.1 ⟨10, []⟩ 4, by decide, ?_⟩
  exact c10_allocator_amended.2.1 5 (by decide)

/-- Claim C9, witness: a three-reload reader pass leaves a concrete state
unchanged. -/
theorem c9_witness :
    applyEvs (⟨2, 5, false⟩ : SeqLock Nat) (readPassEvents 3) =
      ⟨2, 5, false⟩ :=
  (c9_readers_frame Nat ⟨2, 5, false⟩ 3 []).1

end KernelSync
